import Mathlib

/-!
Shallow embedding of the analytics engine of the Priorities-Tracker repository
(files `latestapp_v2.py`, `more_featgpt.py`, `final_appwdb_feat.py`).

Modelling conventions:
* Timestamps are minutes since an (arbitrary) epoch, as `Nat`; all data in the
  store is after the epoch.  A calendar date is the day index `ts / 1440`
  (`pandas` `.dt.date` truncation).
* `duration_hours` values are `ℚ` (the Python floats, modelled exactly).
* Priorities are `String`s, as in the source.
* `pandas` `groupby(...).sum()` is modelled by summing over the distinct keys;
  `pandas` emits group keys in sorted order, and where a claim depends on that
  order (`idxmax` tie-breaking) the keys are sorted explicitly; elsewhere the
  stated properties are insensitive to the enumeration order of the keys.
-/

/-- Minutes in a calendar day. -/
def minutesPerDay : Nat := 1440

/-- `pandas` `.dt.date`: truncate a timestamp (minutes) to its day index. -/
def dateOf (ts : Nat) : Nat := ts / minutesPerDay

/-- One row of the activity log (`Sheet1`): columns `Timestamp`, `Priority`,
`Duration` (hours).  `Activity_Description` and `Remarks` play no role in the
analytics and are omitted. -/
structure ActivityRecord where
  timestamp : Nat
  priority  : String
  duration  : ℚ
deriving DecidableEq

/-- `df['Duration'].sum()` in `calculate_kpis` (all variants). -/
def total_hours (df : List ActivityRecord) : ℚ := (df.map (·.duration)).sum

/-- `df['Timestamp'].max()` (meaningful for a non-empty frame). -/
def tsMax (df : List ActivityRecord) : Nat :=
  match df.map (·.timestamp) with
  | [] => 0
  | t :: ts => ts.foldl max t

/-- `df['Timestamp'].min()` (meaningful for a non-empty frame). -/
def tsMin (df : List ActivityRecord) : Nat :=
  match df.map (·.timestamp) with
  | [] => 0
  | t :: ts => ts.foldl min t

/-- `date_range = (df['Timestamp'].max() - df['Timestamp'].min()).days + 1`:
the `.days` field of a timedelta is the floor of the difference in whole days. -/
def date_range (df : List ActivityRecord) : Nat :=
  (tsMax df - tsMin df) / minutesPerDay + 1

/-- `kpis['avg_hours_per_day'] = total_hours / date_range if date_range > 0 else 0`. -/
def avg_hours_per_day (df : List ActivityRecord) : ℚ :=
  if 0 < date_range df then total_hours df / (date_range df : ℚ) else 0

/-- The span the spec's words describe for C4: calendar date of the maximum
timestamp minus calendar date of the minimum timestamp, plus one day.
Stated from the spec for comparison with `date_range` above. -/
def spec_span_days (df : List ActivityRecord) : Nat :=
  dateOf (tsMax df) - dateOf (tsMin df) + 1

section FoldMinMax

variable {α : Type _} [LinearOrder α]

theorem foldl_max_spec (l : List α) (a : α) :
    (l.foldl max a = a ∨ l.foldl max a ∈ l) ∧
      a ≤ l.foldl max a ∧ ∀ x ∈ l, x ≤ l.foldl max a := by
  induction l generalizing a with
  | nil => simp
  | cons b t ih =>
    obtain ⟨hmem, hle, hall⟩ := ih (max a b)
    refine ⟨?_, ?_, ?_⟩
    · rcases hmem with h | h
      · rcases max_choice a b with hc | hc
        · exact Or.inl (by rw [List.foldl_cons, h, hc])
        · exact Or.inr (by rw [List.foldl_cons, h, hc]; exact List.mem_cons_self _ _)
      · exact Or.inr (List.mem_cons_of_mem _ h)
    · exact le_trans (le_max_left a b) hle
    · intro x hx
      rcases List.mem_cons.mp hx with rfl | hx
      · exact le_trans (le_max_right a x) hle
      · exact hall x hx

theorem foldl_min_spec (l : List α) (a : α) :
    (l.foldl min a = a ∨ l.foldl min a ∈ l) ∧
      l.foldl min a ≤ a ∧ ∀ x ∈ l, l.foldl min a ≤ x := by
  induction l generalizing a with
  | nil => simp
  | cons b t ih =>
    obtain ⟨hmem, hle, hall⟩ := ih (min a b)
    refine ⟨?_, ?_, ?_⟩
    · rcases hmem with h | h
      · rcases min_choice a b with hc | hc
        · exact Or.inl (by rw [List.foldl_cons, h, hc])
        · exact Or.inr (by rw [List.foldl_cons, h, hc]; exact List.mem_cons_self _ _)
      · exact Or.inr (List.mem_cons_of_mem _ h)
    · exact le_trans hle (min_le_left a b)
    · intro x hx
      rcases List.mem_cons.mp hx with rfl | hx
      · exact le_trans hle (min_le_right a x)
      · exact hall x hx

end FoldMinMax

section GroupBy

variable {κ : Type _} [DecidableEq κ]

/-- The summed value of the fiber of one group key:
`l.groupby(key)[value].sum()` at key `k`. -/
def fiberSum (l : List (κ × ℚ)) (k : κ) : ℚ :=
  ((l.filter (fun x => x.1 = k)).map (·.2)).sum

/-- `pandas` `groupby(key)[value].sum().reset_index()`: one row per distinct
key, holding the sum of the values of that key's fiber. -/
def groupSum (l : List (κ × ℚ)) : List (κ × ℚ) :=
  (l.map (·.1)).dedup.map fun k => (k, fiberSum l k)

theorem fiberSum_filter_key (l : List (κ × ℚ)) (pr : κ → Prop) [DecidablePred pr]
    {k : κ} (hk : pr k) :
    fiberSum (l.filter (fun x => pr x.1)) k = fiberSum l k := by
  unfold fiberSum
  have h : (l.filter (fun x => pr x.1)).filter (fun x => x.1 = k)
      = l.filter (fun x => x.1 = k) := by
    rw [List.filter_filter]
    refine List.filter_congr (fun x _ => ?_)
    by_cases h : x.1 = k
    · simp [h, hk]
    · simp [h]
  rw [h]

/-- Summing the fiber sums over a duplicate-free list of keys covering `l`
recovers the total sum of the values. -/
theorem sum_fiberSum :
    ∀ (ks : List κ) (l : List (κ × ℚ)), ks.Nodup → (∀ x ∈ l, x.1 ∈ ks) →
      (ks.map (fiberSum l)).sum = (l.map (·.2)).sum := by
  intro ks
  induction ks with
  | nil =>
    intro l _ hcov
    cases l with
    | nil => simp
    | cons x t => exact absurd (hcov x (List.mem_cons_self x t)) (by simp)
  | cons k ks' ih =>
    intro l hnd hcov
    obtain ⟨hk_notin, hnd'⟩ := List.nodup_cons.mp hnd
    have hsplit : ((l.filter (fun x => x.1 = k)).map (·.2)).sum
        + ((l.filter (fun x => ¬ x.1 = k)).map (·.2)).sum = (l.map (·.2)).sum := by
      have hperm := List.filter_append_perm (fun x => decide (x.1 = k)) l
      have hperm2 := (hperm.map (·.2)).sum_eq
      simpa [List.map_append, List.sum_append, decide_not] using hperm2
    have hfib : ∀ k' ∈ ks', fiberSum l k' = fiberSum (l.filter (fun x => ¬ x.1 = k)) k' := by
      intro k' hk'
      have hne : k' ≠ k := fun h => hk_notin (h ▸ hk')
      exact (fiberSum_filter_key l (fun x => ¬ x = k) hne).symm
    have hcov' : ∀ x ∈ l.filter (fun x => ¬ x.1 = k), x.1 ∈ ks' := by
      intro x hx
      obtain ⟨hxl, hxk⟩ := List.mem_filter.mp hx
      have := hcov x hxl
      rcases List.mem_cons.mp this with h | h
      · exact absurd h (by simpa using hxk)
      · exact h
    calc ((k :: ks').map (fiberSum l)).sum
        = fiberSum l k + (ks'.map (fiberSum l)).sum := by simp
      _ = fiberSum l k + (ks'.map (fiberSum (l.filter (fun x => ¬ x.1 = k)))).sum := by
          rw [List.map_congr_left hfib]
      _ = ((l.filter (fun x => x.1 = k)).map (·.2)).sum
          + ((l.filter (fun x => ¬ x.1 = k)).map (·.2)).sum := by
          rw [ih _ hnd' hcov']; rfl
      _ = (l.map (·.2)).sum := hsplit

theorem groupSum_keys (l : List (κ × ℚ)) :
    (groupSum l).map (·.1) = (l.map (·.1)).dedup := by
  rw [groupSum, List.map_map]
  exact List.map_id _

end GroupBy

/-- `List.lookup` on the graph of `f` over a key list returns `f p` whenever
`p` occurs in the key list. -/
theorem lookup_graph {β : Type _} (f : String → β) :
    ∀ (ks : List String) (p : String), p ∈ ks →
      List.lookup p (ks.map fun k => (k, f k)) = some (f p) := by
  intro ks
  induction ks with
  | nil => intro p h; simp at h
  | cons k t ih =>
    intro p h
    by_cases hk : p = k
    · subst hk; simp [List.lookup]
    · have hb : (p == k) = false := beq_eq_false_iff_ne.mpr hk
      have h' : p ∈ t := by
        rcases List.mem_cons.mp h with rfl | h'
        · exact absurd rfl hk
        · exact h'
      simp only [List.map_cons, List.lookup, hb]
      exact ih p h'

/-- `df.groupby(['Date', 'Priority'])['Duration'].sum()` input: each record
keyed by its (calendar day, priority). -/
def dated_pairs (df : List ActivityRecord) : List ((Nat × String) × ℚ) :=
  df.map fun r => ((dateOf r.timestamp, r.priority), r.duration)

/-- `priority_daily_totals` of `calculate_kpis`. -/
def priority_daily_totals (df : List ActivityRecord) : List ((Nat × String) × ℚ) :=
  groupSum (dated_pairs df)

/-- The arithmetic mean of a list of rationals (`pandas` `.mean()`). -/
def mean (l : List ℚ) : ℚ := l.sum / (l.length : ℚ)

/-- `priority_avgs = priority_daily_totals.groupby('Priority')['Duration'].mean()`
in `calculate_kpis`: group the per-(day, priority) totals by priority and take
the mean. -/
def priority_averages (df : List ActivityRecord) : List (String × ℚ) :=
  ((priority_daily_totals df).map (·.1.2)).dedup.map fun p =>
    (p, mean (((priority_daily_totals df).filter (fun x => x.1.2 = p)).map (·.2)))

/-- The records of one priority. -/
def p_records (df : List ActivityRecord) (p : String) : List ActivityRecord :=
  df.filter (fun r => r.priority = p)

/-- The distinct calendar days on which priority `p` has at least one record. -/
def active_days (df : List ActivityRecord) (p : String) : List Nat :=
  ((p_records df p).map (fun r => dateOf r.timestamp)).dedup

/-- The spec's words for C2: the total hours of priority `p` on day `d`. -/
def day_total (df : List ActivityRecord) (p : String) (d : Nat) : ℚ :=
  fiberSum ((p_records df p).map fun r => (dateOf r.timestamp, r.duration)) d

/-- The spec's words for C2: the mean of the per-day totals of priority `p`,
taken only over the days on which `p` has at least one record. -/
def spec_priority_mean (df : List ActivityRecord) (p : String) : ℚ :=
  mean ((active_days df p).map (day_total df p))

/-- `df.groupby('Priority')['Duration'].sum()` input: records keyed by priority. -/
def priority_keyed (df : List ActivityRecord) : List (String × ℚ) :=
  df.map fun r => (r.priority, r.duration)

/-- Total hours of one priority over the whole input set. -/
def priority_total (df : List ActivityRecord) (p : String) : ℚ :=
  fiberSum (priority_keyed df) p

/-- `pandas` emits group keys in ascending order; `groupby('Priority').sum()`
is one row per distinct priority, keys sorted ascending. -/
def priority_totals (df : List ActivityRecord) : List (String × ℚ) :=
  ((df.map (·.priority)).dedup.insertionSort (· ≤ ·)).map fun p => (p, priority_total df p)

/-- `series.max()`: the greatest value of a non-empty series. -/
def seriesMax (s : List (String × ℚ)) : Option ℚ :=
  match s.map (·.2) with
  | [] => none
  | v :: vs => some (vs.foldl max v)

/-- `series.idxmax()`: the first index (in the series order) whose value is
the maximum; fails on an empty series. -/
def idxmax (s : List (String × ℚ)) : Option String :=
  match seriesMax s with
  | none => none
  | some m => (s.find? (fun kv => kv.2 = m)).map (·.1)

/-- `df.groupby('Priority')['Duration'].sum().idxmax()` of `calculate_kpis`;
`none` models the exception raised on an empty input set. -/
def most_active_priority (df : List ActivityRecord) : Option String :=
  idxmax (priority_totals df)

theorem mem_pdt_priorities (df : List ActivityRecord) (p : String) :
    p ∈ ((priority_daily_totals df).map (·.1.2)).dedup ↔ p ∈ df.map (·.priority) := by
  rw [List.mem_dedup]
  simp only [priority_daily_totals, groupSum, dated_pairs, List.map_map, List.mem_map,
    List.mem_dedup, Function.comp]
  constructor
  · rintro ⟨k, ⟨r, hr, rfl⟩, rfl⟩
    exact ⟨r, hr, rfl⟩
  · rintro ⟨r, hr, rfl⟩
    exact ⟨(dateOf r.timestamp, r.priority), ⟨r, hr, rfl⟩, rfl⟩

theorem pdt_filter_eq (df : List ActivityRecord) (p : String) :
    (priority_daily_totals df).filter (fun x => x.1.2 = p)
      = (((dated_pairs df).map (·.1)).dedup.filter (fun k => k.2 = p)).map
          (fun k => (k, fiberSum (dated_pairs df) k)) := by
  simp only [priority_daily_totals, groupSum]
  rw [List.filter_map]
  rfl

theorem priority_total_eq (df : List ActivityRecord) (p : String) :
    priority_total df p = ((p_records df p).map (·.duration)).sum := by
  simp only [priority_total, fiberSum, priority_keyed, p_records]
  rw [List.filter_map, List.map_map]
  rfl

theorem active_days_length (df : List ActivityRecord) (p : String) :
    ((((dated_pairs df).map (·.1)).dedup.filter (fun k => k.2 = p))).length
      = (active_days df p).length := by
  set L := (((dated_pairs df).map (·.1)).dedup.filter (fun k => k.2 = p)) with hLdef
  have hL : ∀ k ∈ L, k.2 = p := by
    intro k hk
    have := (List.mem_filter.mp hk).2
    simpa using this
  have hnd : L.Nodup := (List.nodup_dedup _).filter _
  have hndm : (L.map (·.1)).Nodup := by
    refine hnd.map_on (fun x hx y hy hxy => ?_)
    have hx2 := hL x hx
    have hy2 := hL y hy
    cases x; cases y
    simp_all
  have hmem : ∀ d, d ∈ L.map (·.1) ↔ d ∈ active_days df p := by
    intro d
    simp only [hLdef, active_days, p_records, dated_pairs, List.mem_map, List.mem_filter,
      List.mem_dedup, List.map_map, Function.comp, decide_eq_true_eq]
    constructor
    · rintro ⟨k, ⟨hk, hk2⟩, rfl⟩
      obtain ⟨r, hr, rfl⟩ := hk
      exact ⟨r, ⟨hr, by simpa using hk2⟩, rfl⟩
    · rintro ⟨r, ⟨hrdf, hrp⟩, rfl⟩
      refine ⟨(dateOf r.timestamp, r.priority), ⟨⟨r, hrdf, rfl⟩, ?_⟩, rfl⟩
      simpa using hrp
  have hperm := (List.perm_ext_iff_of_nodup hndm (List.nodup_dedup _)).mpr hmem
  calc L.length = (L.map (·.1)).length := (List.length_map _ _).symm
    _ = (active_days df p).length := hperm.length_eq

theorem pdt_filter_sum (df : List ActivityRecord) (p : String) :
    (((priority_daily_totals df).filter (fun x => x.1.2 = p)).map (·.2)).sum
      = ((p_records df p).map (·.duration)).sum := by
  rw [pdt_filter_eq, List.map_map]
  have hstep : ∀ k ∈ ((dated_pairs df).map (·.1)).dedup.filter (fun k => k.2 = p),
      ((fun x => x.2) ∘ fun k => (k, fiberSum (dated_pairs df) k)) k
        = fiberSum ((dated_pairs df).filter (fun x => x.1.2 = p)) k := by
    intro k hk
    have hk2 : k.2 = p := by simpa using (List.mem_filter.mp hk).2
    exact (fiberSum_filter_key (dated_pairs df) (fun key => key.2 = p) hk2).symm
  rw [List.map_congr_left hstep]
  have hnd : (((dated_pairs df).map (·.1)).dedup.filter (fun k => k.2 = p)).Nodup :=
    (List.nodup_dedup _).filter _
  have hcov : ∀ x ∈ (dated_pairs df).filter (fun x => x.1.2 = p),
      x.1 ∈ ((dated_pairs df).map (·.1)).dedup.filter (fun k => k.2 = p) := by
    intro x hx
    obtain ⟨hxl, hxp⟩ := List.mem_filter.mp hx
    refine List.mem_filter.mpr ⟨List.mem_dedup.mpr (List.mem_map.mpr ⟨x, hxl, rfl⟩), hxp⟩
  rw [sum_fiberSum _ _ hnd hcov]
  have : (dated_pairs df).filter (fun x => x.1.2 = p)
      = (p_records df p).map fun r => ((dateOf r.timestamp, r.priority), r.duration) := by
    simp only [dated_pairs, p_records]
    rw [List.filter_map]
    rfl
  rw [this, List.map_map]
  rfl

theorem spec_mean_sum (df : List ActivityRecord) (p : String) :
    ((active_days df p).map (day_total df p)).sum = ((p_records df p).map (·.duration)).sum := by
  have hnd : (active_days df p).Nodup := List.nodup_dedup _
  have hcov : ∀ x ∈ (p_records df p).map (fun r => (dateOf r.timestamp, r.duration)),
      x.1 ∈ active_days df p := by
    intro x hx
    obtain ⟨r, hr, rfl⟩ := List.mem_map.mp hx
    exact List.mem_dedup.mpr (List.mem_map.mpr ⟨r, hr, rfl⟩)
  have h := sum_fiberSum (active_days df p)
    ((p_records df p).map (fun r => (dateOf r.timestamp, r.duration))) hnd hcov
  calc ((active_days df p).map (day_total df p)).sum
      = (((p_records df p).map (fun r => (dateOf r.timestamp, r.duration))).map (·.2)).sum := h
    _ = ((p_records df p).map (·.duration)).sum := by rw [List.map_map]; rfl

theorem tsMax_spec (df : List ActivityRecord) (h : df ≠ []) :
    tsMax df ∈ df.map (·.timestamp) ∧ ∀ t ∈ df.map (·.timestamp), t ≤ tsMax df := by
  cases df with
  | nil => exact absurd rfl h
  | cons r rest =>
    have hfold := foldl_max_spec ((rest.map (·.timestamp))) r.timestamp
    obtain ⟨hmem, hle, hall⟩ := hfold
    constructor
    · show (rest.map (·.timestamp)).foldl max r.timestamp ∈ r.timestamp :: rest.map (·.timestamp)
      rcases hmem with h' | h'
      · rw [h']; exact List.mem_cons_self _ _
      · exact List.mem_cons_of_mem _ h'
    · intro t ht
      rcases List.mem_cons.mp ht with rfl | ht
      · exact hle
      · exact hall t ht

theorem tsMin_spec (df : List ActivityRecord) (h : df ≠ []) :
    tsMin df ∈ df.map (·.timestamp) ∧ ∀ t ∈ df.map (·.timestamp), tsMin df ≤ t := by
  cases df with
  | nil => exact absurd rfl h
  | cons r rest =>
    have hfold := foldl_min_spec ((rest.map (·.timestamp))) r.timestamp
    obtain ⟨hmem, hle, hall⟩ := hfold
    constructor
    · show (rest.map (·.timestamp)).foldl min r.timestamp ∈ r.timestamp :: rest.map (·.timestamp)
      rcases hmem with h' | h'
      · rw [h']; exact List.mem_cons_self _ _
      · exact List.mem_cons_of_mem _ h'
    · intro t ht
      rcases List.mem_cons.mp ht with rfl | ht
      · exact hle
      · exact hall t ht

/-- Two records 2 hours apart that straddle a midnight: 23:00 of day 0 and
01:00 of day 1.  The code's `date_range` is 1, the spec's calendar span is 2. -/
def exC4 : List ActivityRecord := [⟨1380, "A", 2⟩, ⟨1500, "A", 2⟩]

/-- C4 counterexample: `avg_hours_per_day` does not equal
`total_hours / spec_span_days` (calendar-date span) on records 23:00 day 0 /
01:00 day 1 — the code gives 4/1 = 4, the claim's formula gives 4/2 = 2. -/
theorem claim_C4_counterexample :
    avg_hours_per_day exC4 ≠ total_hours exC4 / (spec_span_days exC4 : ℚ) := by
  norm_num [avg_hours_per_day, total_hours, date_range, spec_span_days, tsMax, tsMin,
    dateOf, minutesPerDay, exC4]

/-- C4 amended: `avg_hours_per_day` equals `total_hours / date_range`, where
`date_range` is the floor of `(max timestamp − min timestamp)` in whole days
plus 1 — the floor of the timestamp difference, not the calendar-date
difference.  For a record set all on one calendar day the two notions agree
and the average equals the total. -/
theorem claim_C4_avg_hours_per_day :
    (∀ df : List ActivityRecord,
      avg_hours_per_day df = total_hours df / (date_range df : ℚ)) ∧
    ∀ df : List ActivityRecord, df ≠ [] →
      (∀ r ∈ df, dateOf r.timestamp = dateOf (tsMin df)) →
      avg_hours_per_day df = total_hours df := by
  constructor
  · intro df
    rw [avg_hours_per_day, if_pos]
    rw [date_range]
    exact Nat.succ_pos _
  · intro df hne hday
    obtain ⟨hmaxmem, -⟩ := tsMax_spec df hne
    obtain ⟨-, hminall⟩ := tsMin_spec df hne
    obtain ⟨r1, hr1, hr1t⟩ := List.mem_map.mp hmaxmem
    have hminle : tsMin df ≤ tsMax df := hminall _ hmaxmem
    have hdates : dateOf (tsMax df) = dateOf (tsMin df) := by
      rw [← hr1t]; exact hday r1 hr1
    have hrange : date_range df = 1 := by
      rw [date_range]
      have h1 : tsMax df / minutesPerDay = tsMin df / minutesPerDay := hdates
      rw [minutesPerDay] at h1 ⊢
      omega
    rw [avg_hours_per_day, hrange]
    norm_num

/-- Records at 00:00 and 01:00 of the same calendar day. -/
def exC4b : List ActivityRecord := [⟨0, "A", 1⟩, ⟨60, "A", 2⟩]

/-- Witness for the amended C4 on a single-calendar-day set. -/
theorem claim_C4_avg_hours_per_day_witness :
    avg_hours_per_day exC4b = total_hours exC4b :=
  claim_C4_avg_hours_per_day.2 exC4b (by decide) (by decide)

/-- Two records of priority "A", on day 0 and day 2 (no activity on day 1). -/
def exC2 : List ActivityRecord := [⟨0, "A", 2⟩, ⟨2880, "A", 4⟩]

/-- C2: for every priority present in the record set,
`priority_averages` reports the mean of the per-day duration totals over
exactly the days on which that priority has at least one record; on the
example set (2 h on day 0, 4 h on day 2, nothing on day 1) it reports 3,
which differs from total hours / span days = 6/3 = 2. -/
theorem claim_C2_per_priority_average :
    (∀ (df : List ActivityRecord) (p : String), p ∈ df.map (·.priority) →
      List.lookup p (priority_averages df) = some (spec_priority_mean df p)) ∧
      List.lookup "A" (priority_averages exC2) = some 3 ∧
      spec_priority_mean exC2 "A" ≠ priority_total exC2 "A" / (date_range exC2 : ℚ) := by
  have hspec : spec_priority_mean exC2 "A" = 3 := by
    norm_num [spec_priority_mean, active_days, p_records, day_total, fiberSum, mean, exC2,
      dateOf, minutesPerDay]
  have hmain : ∀ (df : List ActivityRecord) (p : String), p ∈ df.map (·.priority) →
      List.lookup p (priority_averages df) = some (spec_priority_mean df p) := ?_
  · refine ⟨hmain, ?_, ?_⟩
    · rw [hmain exC2 "A" (by simp [exC2]), hspec]
    · rw [hspec]
      norm_num [priority_total, priority_keyed, fiberSum, exC2, date_range, tsMax, tsMin,
        minutesPerDay]
  intro df p hp
  have hkeys := (mem_pdt_priorities df p).mpr hp
  have hlk := lookup_graph
    (fun q => mean (((priority_daily_totals df).filter (fun x => x.1.2 = q)).map (·.2)))
    (((priority_daily_totals df).map (·.1.2)).dedup) p hkeys
  have hpa : List.lookup p (priority_averages df)
      = some (mean (((priority_daily_totals df).filter (fun x => x.1.2 = p)).map (·.2))) := hlk
  rw [hpa]
  refine congrArg some ?_
  have hlen : (((priority_daily_totals df).filter (fun x => x.1.2 = p)).map (·.2)).length
      = ((active_days df p).map (day_total df p)).length := by
    rw [List.length_map, List.length_map, pdt_filter_eq, List.length_map, active_days_length]
  simp only [mean, spec_priority_mean]
  rw [pdt_filter_sum, spec_mean_sum, hlen]

/-- Witness for C2 at the concrete example set. -/
theorem claim_C2_per_priority_average_witness :
    List.lookup "A" (priority_averages exC2) = some (spec_priority_mean exC2 "A") :=
  claim_C2_per_priority_average.1 exC2 "A" (by simp [exC2])

theorem seriesMax_of_ne_nil (s : List (String × ℚ)) (h : s ≠ []) :
    ∃ m, seriesMax s = some m := by
  cases s with
  | nil => exact absurd rfl h
  | cons a t =>
    refine ⟨(t.map (fun x => x.2)).foldl max a.2, ?_⟩
    rfl

theorem seriesMax_spec (s : List (String × ℚ)) {m : ℚ} (h : seriesMax s = some m) :
    m ∈ s.map (·.2) ∧ ∀ v ∈ s.map (·.2), v ≤ m := by
  unfold seriesMax at h
  cases hvals : s.map (·.2) with
  | nil => rw [hvals] at h; cases h
  | cons v vs =>
    rw [hvals] at h
    injection h with h
    subst h
    obtain ⟨hmem, hle, hall⟩ := foldl_max_spec vs v
    constructor
    · rcases hmem with h | h
      · rw [h]; exact List.mem_cons_self _ _
      · exact List.mem_cons_of_mem _ h
    · intro x hx
      rcases List.mem_cons.mp hx with rfl | hx
      · exact hle
      · exact hall x hx

theorem find?_isSome_of_mem {α : Type _} {p : α → Bool} {l : List α} (x : α)
    (hx : x ∈ l) (hpx : p x = true) : ∃ y, l.find? p = some y := by
  cases hfind : l.find? p with
  | some y => exact ⟨y, rfl⟩
  | none => exact absurd hpx (List.find?_eq_none.mp hfind x hx)

theorem find?_first_key_le : ∀ (s : List (String × ℚ)) (m : ℚ),
    s.Pairwise (fun a b => a.1 ≤ b.1) → ∀ {kv0 : String × ℚ},
    s.find? (fun kv => kv.2 = m) = some kv0 →
    ∀ kv' ∈ s, kv'.2 = m → kv0.1 ≤ kv'.1 := by
  intro s m
  induction s with
  | nil => intro _ kv0 h; simp at h
  | cons a t ih =>
    intro hs kv0 h kv' hkv' hm
    by_cases ha : a.2 = m
    · rw [List.find?_cons_of_pos _ (by simpa using ha)] at h
      injection h with h
      subst h
      rcases List.mem_cons.mp hkv' with rfl | hkv'
      · exact le_refl _
      · exact (List.pairwise_cons.mp hs).1 kv' hkv'
    · rw [List.find?_cons_of_neg _ (by simpa using ha)] at h
      rcases List.mem_cons.mp hkv' with rfl | hkv'
      · exact absurd hm ha
      · exact ih (List.pairwise_cons.mp hs).2 h kv' hkv' hm

/-- C8: `most_active_priority` fails (models the raised exception as `none`)
on an empty record set; on a non-empty set it returns a priority whose summed
duration is greatest, and among equal totals the first one in the stable
enumeration order of the grouped series (ascending priority name, as `pandas`
emits sorted group keys). -/
theorem claim_C8_most_active :
    most_active_priority ([] : List ActivityRecord) = none ∧
    ∀ df : List ActivityRecord, df ≠ [] →
      ∃ p, most_active_priority df = some p ∧ p ∈ df.map (·.priority) ∧
        (∀ q ∈ df.map (·.priority), priority_total df q ≤ priority_total df p) ∧
        (∀ q ∈ df.map (·.priority), priority_total df q = priority_total df p → p ≤ q) := by
  refine ⟨rfl, ?_⟩
  intro df hdf
  set s := priority_totals df with hs
  have hsne : s ≠ [] := by
    rw [hs]
    unfold priority_totals
    intro h0
    rw [List.map_eq_nil_iff] at h0
    have hlen := (List.perm_insertionSort (· ≤ ·) ((df.map (·.priority)).dedup)).length_eq
    rw [h0] at hlen
    simp only [List.length_nil] at hlen
    cases df with
    | nil => exact hdf rfl
    | cons r t =>
      have hmem : r.priority ∈ (List.map (·.priority) (r :: t)).dedup :=
        List.mem_dedup.mpr (by simp)
      have hpos := List.length_pos.mpr (List.ne_nil_of_mem hmem)
      omega
  obtain ⟨m, hm⟩ := seriesMax_of_ne_nil s hsne
  obtain ⟨hm_mem, hm_max⟩ := seriesMax_spec s hm
  obtain ⟨kv, hkv_s, hkv_val⟩ := List.mem_map.mp hm_mem
  obtain ⟨kv0, hfind⟩ :=
    find?_isSome_of_mem (p := fun kv => kv.2 = m) kv hkv_s (by simpa using hkv_val)
  have hkv0_val : kv0.2 = m := by simpa using List.find?_some hfind
  have hkv0_mem : kv0 ∈ s := List.mem_of_find?_eq_some hfind
  have hres : most_active_priority df = some kv0.1 := by
    unfold most_active_priority idxmax
    rw [← hs, hm]
    show (s.find? (fun kv => kv.2 = m)).map (·.1) = some kv0.1
    rw [hfind]
    rfl
  have hs_val : ∀ kv₁ ∈ s, kv₁.2 = priority_total df kv₁.1 := by
    intro kv₁ hkv₁
    rw [hs] at hkv₁
    unfold priority_totals at hkv₁
    obtain ⟨k, _, rfl⟩ := List.mem_map.mp hkv₁
    rfl
  have hq_mem : ∀ q ∈ df.map (·.priority), (q, priority_total df q) ∈ s := by
    intro q hq
    rw [hs]
    unfold priority_totals
    exact List.mem_map.mpr
      ⟨q, ((List.perm_insertionSort (· ≤ ·) _).mem_iff).mpr (List.mem_dedup.mpr hq), rfl⟩
  have htot0 : priority_total df kv0.1 = m := by rw [← hs_val kv0 hkv0_mem, hkv0_val]
  have hp_mem : kv0.1 ∈ df.map (·.priority) := by
    rw [hs] at hkv0_mem
    unfold priority_totals at hkv0_mem
    obtain ⟨k, hk, rfl⟩ := List.mem_map.mp hkv0_mem
    exact List.mem_dedup.mp (((List.perm_insertionSort (· ≤ ·) _).mem_iff).mp hk)
  have hpair : s.Pairwise (fun a b => a.1 ≤ b.1) := by
    rw [hs]
    unfold priority_totals
    rw [List.pairwise_map]
    exact List.sorted_insertionSort (· ≤ ·) ((df.map (·.priority)).dedup)
  refine ⟨kv0.1, hres, hp_mem, ?_, ?_⟩
  · intro q hq
    have : priority_total df q ∈ s.map (·.2) := List.mem_map.mpr ⟨_, hq_mem q hq, rfl⟩
    rw [htot0]
    exact hm_max _ this
  · intro q hq hqe
    exact find?_first_key_le s m hpair hfind (q, priority_total df q) (hq_mem q hq)
      (by rw [hqe, htot0])

/-- Two priorities with exactly equal totals; the tie resolves to "Career". -/
def exC8 : List ActivityRecord := [⟨0, "Music", 2⟩, ⟨60, "Career", 2⟩]

/-- Witness for C8 at a concrete tied input. -/
theorem claim_C8_most_active_witness :
    ∃ p, most_active_priority exC8 = some p ∧ p ∈ exC8.map (·.priority) ∧
      (∀ q ∈ exC8.map (·.priority), priority_total exC8 q ≤ priority_total exC8 p) ∧
      (∀ q ∈ exC8.map (·.priority), priority_total exC8 q = priority_total exC8 p → p ≤ q) :=
  claim_C8_most_active.2 exC8 (by decide)

/-! ## Streak detection (`calculate_streaks`, identical in all variants) -/

/-- The result entry per priority: `current`, `max`, `last_activity`. -/
structure StreakInfo where
  current : Nat
  max : Nat
  last_activity : Nat
deriving DecidableEq

/-- The `for date in priority_dates[1:]` loop of `calculate_streaks`, carrying
`current_streak`, `max_streak` and `last_date`.  The source compares
`(date - last_date).days == 1`, i.e. `d = last + 1` on day numbers. -/
def streakLoop : Nat → Nat → Nat → List Nat → Nat × Nat
  | cur, mx, _, [] => (cur, mx)
  | cur, mx, last, d :: rest =>
    if d = last + 1 then streakLoop (cur + 1) (max mx (cur + 1)) d rest
    else streakLoop 1 mx d rest

/-- Python's `max(list)` over a non-empty list of day numbers. -/
def listMax (l : List Nat) : Nat :=
  match l with
  | [] => 0
  | d :: rest => rest.foldl max d

/-- `sorted(priority_df['Date'].unique())`: the distinct activity dates of a
priority, in ascending order. -/
def sorted_dates (df : List ActivityRecord) (p : String) : List Nat :=
  (active_days df p).insertionSort (· ≤ ·)

/-- The per-priority body of `calculate_streaks`; the `[]` branch is
unreachable (every enumerated priority has at least one record). -/
def streak_entry (df : List ActivityRecord) (p : String) : StreakInfo :=
  match sorted_dates df p with
  | [] => ⟨0, 0, 0⟩
  | d :: rest =>
    ⟨(streakLoop 1 1 d rest).1, (streakLoop 1 1 d rest).2, listMax (d :: rest)⟩

/-- `calculate_streaks`: one entry per distinct priority of the record set. -/
def calculate_streaks (df : List ActivityRecord) : List (String × StreakInfo) :=
  (df.map (·.priority)).dedup.map fun p => (p, streak_entry df p)

/-- The spec's words for C5, on the reversed (descending) date list: the
length of the maximal run of consecutive dates at the head. -/
def descRun : List Nat → Nat
  | [] => 0
  | [_] => 1
  | a :: b :: rest => if a = b + 1 then descRun (b :: rest) + 1 else 1

/-- The spec's words for C5: the length of the run of consecutive dates
ending at the last element of `l`. -/
def endRun (l : List Nat) : Nat := descRun l.reverse

/-- Helper for `maxRun`: the greatest head run length over all suffixes of a
descending list. -/
def maxRunRev : List Nat → Nat
  | [] => 0
  | a :: rest => max (descRun (a :: rest)) (maxRunRev rest)

/-- The spec's words for C5: the longest run of consecutive dates in `l` (the
maximum, over all positions, of the run length ending at that position). -/
def maxRun (l : List Nat) : Nat := maxRunRev l.reverse

theorem endRun_snoc_snoc (ys : List Nat) (a d : Nat) :
    endRun ((ys ++ [a]) ++ [d]) = if d = a + 1 then endRun (ys ++ [a]) + 1 else 1 := by
  unfold endRun
  rw [List.reverse_append, List.reverse_append]
  rfl

theorem maxRun_snoc (ys : List Nat) (d : Nat) :
    maxRun (ys ++ [d]) = max (endRun (ys ++ [d])) (maxRun ys) := by
  unfold maxRun endRun
  rw [List.reverse_append]
  rfl

theorem one_le_descRun (l : List Nat) (h : l ≠ []) : 1 ≤ descRun l := by
  cases l with
  | nil => exact absurd rfl h
  | cons a t =>
    cases t with
    | nil => exact le_refl 1
    | cons b t' =>
      rw [show descRun (a :: b :: t') = if a = b + 1 then descRun (b :: t') + 1 else 1 from rfl]
      split <;> omega

theorem one_le_endRun_snoc (ys : List Nat) (a : Nat) : 1 ≤ endRun (ys ++ [a]) := by
  unfold endRun
  rw [List.reverse_append]
  exact one_le_descRun _ (by simp)

theorem one_le_maxRun_snoc (ys : List Nat) (a : Nat) : 1 ≤ maxRun (ys ++ [a]) := by
  rw [maxRun_snoc]
  exact le_trans (one_le_endRun_snoc ys a) (le_max_left _ _)

theorem streakLoop_spec : ∀ (rest pre : List Nat) (last : Nat),
    streakLoop (endRun (pre ++ [last])) (maxRun (pre ++ [last])) last rest
      = (endRun (pre ++ last :: rest), maxRun (pre ++ last :: rest)) := by
  intro rest
  induction rest with
  | nil => intro pre last; rfl
  | cons d rest' ih =>
    intro pre last
    show (if d = last + 1 then
        streakLoop (endRun (pre ++ [last]) + 1)
          (max (maxRun (pre ++ [last])) (endRun (pre ++ [last]) + 1)) d rest'
      else streakLoop 1 (maxRun (pre ++ [last])) d rest')
      = (endRun (pre ++ last :: d :: rest'), maxRun (pre ++ last :: d :: rest'))
    by_cases hd : d = last + 1
    · rw [if_pos hd]
      have hcur : endRun (pre ++ [last]) + 1 = endRun ((pre ++ [last]) ++ [d]) := by
        rw [endRun_snoc_snoc, if_pos hd]
      have hmx : max (maxRun (pre ++ [last])) (endRun (pre ++ [last]) + 1)
          = maxRun ((pre ++ [last]) ++ [d]) := by
        conv_rhs => rw [maxRun_snoc, ← hcur]
        rw [max_comm]
      have h := ih (pre ++ [last]) d
      rw [← hcur, ← hmx] at h
      simpa [List.append_assoc] using h
    · rw [if_neg hd]
      have hcur : (1 : Nat) = endRun ((pre ++ [last]) ++ [d]) := by
        rw [endRun_snoc_snoc, if_neg hd]
      have hmx : maxRun (pre ++ [last]) = maxRun ((pre ++ [last]) ++ [d]) := by
        conv_rhs => rw [maxRun_snoc, ← hcur]
        exact (Nat.max_eq_right (one_le_maxRun_snoc pre last)).symm
      have h := ih (pre ++ [last]) d
      rw [← hcur, ← hmx] at h
      simpa [List.append_assoc] using h

theorem streakLoop_main (d : Nat) (rest : List Nat) :
    streakLoop 1 1 d rest = (endRun (d :: rest), maxRun (d :: rest)) := by
  have h := streakLoop_spec rest [] d
  simpa using h

/-- "Fitness" activity on days 0, 1, 2 and 4 (2025-01-01/02/03/05 as day
numbers). -/
def exC5 : List ActivityRecord :=
  [⟨0, "Fitness", 1⟩, ⟨1440, "Fitness", 1⟩, ⟨2880, "Fitness", 1⟩, ⟨5760, "Fitness", 1⟩]

/-- C5: `calculate_streaks` returns an empty mapping on an empty record set;
for each priority present, its entry holds the run length ending at the
latest date (`current`), the longest run of consecutive dates (`max`), and the
latest date (`last_activity`), over that priority's distinct dates in
ascending order.  On days 0,1,2,4 it reports current 1, max 3, last 4. -/
theorem claim_C5_streaks :
    calculate_streaks [] = [] ∧
    (∀ (df : List ActivityRecord) (p : String), p ∈ df.map (·.priority) →
      List.lookup p (calculate_streaks df)
        = some ⟨endRun (sorted_dates df p), maxRun (sorted_dates df p),
            listMax (sorted_dates df p)⟩) ∧
    sorted_dates exC5 "Fitness" = [0, 1, 2, 4] ∧
    List.lookup "Fitness" (calculate_streaks exC5) = some ⟨1, 3, 4⟩ := by
  refine ⟨rfl, ?_, by decide, by decide⟩
  intro df p hp
  have hkeys : p ∈ (df.map (·.priority)).dedup := List.mem_dedup.mpr hp
  have hlk := lookup_graph (streak_entry df) ((df.map (·.priority)).dedup) p hkeys
  have hpa : List.lookup p (calculate_streaks df) = some (streak_entry df p) := hlk
  rw [hpa]
  refine congrArg some ?_
  have hne : sorted_dates df p ≠ [] := by
    obtain ⟨r, hr, hrp⟩ := List.mem_map.mp hp
    have hd : dateOf r.timestamp ∈ active_days df p := by
      refine List.mem_dedup.mpr (List.mem_map.mpr ⟨r, ?_, rfl⟩)
      refine List.mem_filter.mpr ⟨hr, by simpa using hrp⟩
    have hmemr : dateOf r.timestamp ∈ sorted_dates df p :=
      ((List.perm_insertionSort (· ≤ ·) _).mem_iff).mpr hd
    exact List.ne_nil_of_mem hmemr
  cases hsd : sorted_dates df p with
  | nil => exact absurd hsd hne
  | cons d rest =>
    unfold streak_entry
    rw [hsd]
    show StreakInfo.mk (streakLoop 1 1 d rest).1 (streakLoop 1 1 d rest).2 (listMax (d :: rest))
      = ⟨endRun (d :: rest), maxRun (d :: rest), listMax (d :: rest)⟩
    rw [streakLoop_main]

/-- Witness for C5 at the concrete "Fitness" record set. -/
theorem claim_C5_streaks_witness :
    List.lookup "Fitness" (calculate_streaks exC5)
      = some ⟨endRun (sorted_dates exC5 "Fitness"), maxRun (sorted_dates exC5 "Fitness"),
          listMax (sorted_dates exC5 "Fitness")⟩ :=
  claim_C5_streaks.2.1 exC5 "Fitness" (by decide)

/-! ## Plan-vs-actual reconciliation
(`analyze_schedule_vs_actual` in `more_featgpt.py`,
`create_plan_vs_actual_analysis` in `latestapp_v2.py`) -/

/-- A schedule row as used by the reconcilers: `Date` (day number),
`Priority`, `Planned_Duration`.  Time-of-day, activity text and status play no
role in the join. -/
structure ScheduleEntry where
  date : Nat
  priority : String
  planned_duration : ℚ
deriving DecidableEq

/-- Schedule rows keyed by (date, priority):
`schedule_df.groupby(['Date', 'Priority'])['Planned_Duration'].sum()` input. -/
def sched_pairs (sched : List ScheduleEntry) : List ((Nat × String) × ℚ) :=
  sched.map fun e => ((e.date, e.priority), e.planned_duration)

/-- The (date, priority) pairs appearing in the schedule input. -/
def sched_keys (sched : List ScheduleEntry) : List (Nat × String) :=
  (sched_pairs sched).map (·.1)

/-- The (date, priority) pairs appearing in the activity input (dates from
timestamps truncated to days). -/
def act_keys (df : List ActivityRecord) : List (Nat × String) :=
  (dated_pairs df).map (·.1)

/-- One side's value at a key of the other side during the merge. -/
def lookupVal (l : List ((Nat × String) × ℚ)) (k : Nat × String) : Option ℚ :=
  (l.find? (fun x => x.1 = k)).map (·.2)

/-- `pd.merge(L, R, on=key, how='outer')` over key-unique frames: the rows of
`L` (tagged with `R`'s value at the key, `none` = NaN when absent), then the
rows of `R` whose key does not occur in `L`. -/
def outerMerge (L R : List ((Nat × String) × ℚ)) :
    List ((Nat × String) × Option ℚ × Option ℚ) :=
  L.map (fun x => (x.1, some x.2, lookupVal R x.1))
    ++ (R.filter (fun x => ¬ x.1 ∈ L.map (·.1))).map (fun x => (x.1, none, some x.2))

/-- A row of `comparison_df` in `create_plan_vs_actual_analysis`
(`latestapp_v2.py`): planned and actual hours after `fillna(0)` and their
`Difference`. -/
structure CompRow where
  date : Nat
  priority : String
  planned : ℚ
  actual : ℚ
  difference : ℚ
deriving DecidableEq

/-- The join core of `create_plan_vs_actual_analysis` (`latestapp_v2.py`
lines 343-368): group both inputs by (date, priority), outer-merge, fill the
missing sides with 0, and set `Difference = actual − planned`. -/
def create_plan_vs_actual (sched : List ScheduleEntry) (df : List ActivityRecord) :
    List CompRow :=
  (outerMerge (groupSum (sched_pairs sched)) (groupSum (dated_pairs df))).map fun m =>
    ⟨m.1.1, m.1.2, m.2.1.getD 0, m.2.2.getD 0, m.2.2.getD 0 - m.2.1.getD 0⟩

/-- `pandas` `.round(2)` (modelled over ℚ). -/
def round2 (x : ℚ) : ℚ := (round (x * 100) : ℤ) / 100

/-- A row of the `comparison` frame of `analyze_schedule_vs_actual`
(`more_featgpt.py`): planned and actual hours after `fillna(0)` and the
`Completion_Rate`. -/
structure AnalysisRow where
  date : Nat
  priority : String
  planned : ℚ
  actual : ℚ
  completion_rate : ℚ
deriving DecidableEq

/-- The comparison table of `analyze_schedule_vs_actual`: group, outer-merge,
`fillna(0)`, `sort_values('Date')`, then `Completion_Rate = 0.0` except where
`Planned_Duration > 0`, where it is `(actual/planned*100).round(2)`. -/
def comparison_rows (sched : List ScheduleEntry) (df : List ActivityRecord) :
    List AnalysisRow :=
  (((outerMerge (groupSum (sched_pairs sched)) (groupSum (dated_pairs df))).map fun m =>
      (m.1, m.2.1.getD 0, m.2.2.getD 0)).insertionSort
        (fun a b => a.1.1 ≤ b.1.1)).map fun m =>
    ⟨m.1.1, m.1.2, m.2.1, m.2.2,
      if 0 < m.2.1 then round2 (m.2.2 / m.2.1 * 100) else 0⟩

/-- `analyze_schedule_vs_actual` (`more_featgpt.py` lines 135-178): returns
early (no table, a warning only) when either input frame is empty. -/
def analyze_schedule_vs_actual (sched : List ScheduleEntry) (df : List ActivityRecord) :
    Option (List AnalysisRow) :=
  if sched = [] then none
  else if df = [] then none
  else some (comparison_rows sched df)

/-- The (date, priority) key of a joined row. -/
def rowKey (row : CompRow) : Nat × String := (row.date, row.priority)

/-- The (date, priority) key of a comparison row. -/
def arowKey (row : AnalysisRow) : Nat × String := (row.date, row.priority)

theorem outerMerge_keys (L R : List ((Nat × String) × ℚ)) :
    (outerMerge L R).map (·.1)
      = L.map (·.1) ++ (R.map (·.1)).filter (fun k => ¬ k ∈ L.map (·.1)) := by
  unfold outerMerge
  rw [List.map_append, List.map_map, List.map_map, List.filter_map]
  rfl

theorem outerMerge_keys_nodup (L R : List ((Nat × String) × ℚ))
    (hL : (L.map (·.1)).Nodup) (hR : (R.map (·.1)).Nodup) :
    ((outerMerge L R).map (·.1)).Nodup := by
  rw [outerMerge_keys, List.nodup_append]
  refine ⟨hL, hR.filter _, ?_⟩
  intro k hk1 hk2
  have := (List.mem_filter.mp hk2).2
  simp only [decide_not, Bool.not_eq_true', decide_eq_false_iff_not] at this
  exact this hk1

theorem mem_outerMerge_keys (L R : List ((Nat × String) × ℚ)) (k : Nat × String) :
    k ∈ (outerMerge L R).map (·.1) ↔ k ∈ L.map (·.1) ∨ k ∈ R.map (·.1) := by
  rw [outerMerge_keys, List.mem_append, List.mem_filter]
  constructor
  · rintro (h | ⟨h, -⟩)
    · exact Or.inl h
    · exact Or.inr h
  · rintro (h | h)
    · exact Or.inl h
    · by_cases hL : k ∈ L.map (·.1)
      · exact Or.inl hL
      · exact Or.inr ⟨h, by simpa using hL⟩

theorem outerMerge_row_planned_none (L R : List ((Nat × String) × ℚ))
    {m : (Nat × String) × Option ℚ × Option ℚ} (hm : m ∈ outerMerge L R)
    (h : ¬ m.1 ∈ L.map (·.1)) : m.2.1 = none := by
  unfold outerMerge at hm
  rcases List.mem_append.mp hm with h1 | h1
  · obtain ⟨x, hx, rfl⟩ := List.mem_map.mp h1
    exact absurd (List.mem_map.mpr ⟨x, hx, rfl⟩) h
  · obtain ⟨x, hx, rfl⟩ := List.mem_map.mp h1
    rfl

theorem outerMerge_row_actual_none (L R : List ((Nat × String) × ℚ))
    {m : (Nat × String) × Option ℚ × Option ℚ} (hm : m ∈ outerMerge L R)
    (h : ¬ m.1 ∈ R.map (·.1)) : m.2.2 = none := by
  unfold outerMerge at hm
  rcases List.mem_append.mp hm with h1 | h1
  · obtain ⟨x, hx, rfl⟩ := List.mem_map.mp h1
    show (R.find? (fun y => y.1 = x.1)).map (·.2) = none
    rw [List.find?_eq_none.mpr ?_]
    · rfl
    · intro y hy
      simp only [decide_eq_true_eq]
      intro hyx
      exact h (List.mem_map.mpr ⟨y, hy, hyx⟩)
  · obtain ⟨x, hx, rfl⟩ := List.mem_map.mp h1
    have hxR := (List.mem_filter.mp hx).1
    exact absurd (List.mem_map.mpr ⟨x, hxR, rfl⟩) h

theorem groupSum_keys_nodup {κ : Type _} [DecidableEq κ] (l : List (κ × ℚ)) :
    ((groupSum l).map (·.1)).Nodup := by
  rw [groupSum_keys]
  exact List.nodup_dedup _

theorem mem_groupSum_keys {κ : Type _} [DecidableEq κ] (l : List (κ × ℚ)) (k : κ) :
    k ∈ (groupSum l).map (·.1) ↔ k ∈ l.map (·.1) := by
  rw [groupSum_keys]
  exact List.mem_dedup

theorem create_keys (sched : List ScheduleEntry) (df : List ActivityRecord) :
    (create_plan_vs_actual sched df).map rowKey
      = (outerMerge (groupSum (sched_pairs sched)) (groupSum (dated_pairs df))).map (·.1) := by
  unfold create_plan_vs_actual rowKey
  rw [List.map_map]
  rfl

theorem comparison_keys_perm (sched : List ScheduleEntry) (df : List ActivityRecord) :
    ((comparison_rows sched df).map arowKey).Perm
      ((outerMerge (groupSum (sched_pairs sched)) (groupSum (dated_pairs df))).map (·.1)) := by
  unfold comparison_rows arowKey
  rw [List.map_map]
  have h1 := (List.perm_insertionSort (fun a b : (Nat × String) × ℚ × ℚ => a.1.1 ≤ b.1.1)
    ((outerMerge (groupSum (sched_pairs sched)) (groupSum (dated_pairs df))).map fun m =>
      (m.1, m.2.1.getD 0, m.2.2.getD 0))).map (·.1)
  have h2 : (((outerMerge (groupSum (sched_pairs sched)) (groupSum (dated_pairs df))).map
      fun m => (m.1, m.2.1.getD 0, m.2.2.getD 0)).map (·.1))
      = (outerMerge (groupSum (sched_pairs sched)) (groupSum (dated_pairs df))).map (·.1) := by
    rw [List.map_map]
    rfl
  rw [h2] at h1
  exact h1

/-- C1: both reconcilers perform a full outer join on (date, priority): each
pair appearing in either input yields exactly one output row (the key list is
duplicate-free and its membership is the union of the input key sets); a pair
absent from the activity side gets `actual = 0`, absent from the schedule
side gets `planned = 0`; and each row's `Difference` is actual − planned (in
the `latestapp_v2` reconciler, which computes it).  The `more_featgpt`
variant returns its table only when both inputs are non-empty. -/
theorem claim_C1_full_outer_join :
    (∀ (sched : List ScheduleEntry) (df : List ActivityRecord),
      ((create_plan_vs_actual sched df).map rowKey).Nodup ∧
      (∀ k, k ∈ (create_plan_vs_actual sched df).map rowKey ↔
        k ∈ sched_keys sched ∨ k ∈ act_keys df) ∧
      (∀ row ∈ create_plan_vs_actual sched df, row.difference = row.actual - row.planned) ∧
      (∀ row ∈ create_plan_vs_actual sched df, ¬ rowKey row ∈ act_keys df → row.actual = 0) ∧
      (∀ row ∈ create_plan_vs_actual sched df,
        ¬ rowKey row ∈ sched_keys sched → row.planned = 0)) ∧
    (∀ (sched : List ScheduleEntry) (df : List ActivityRecord) (t : List AnalysisRow),
      analyze_schedule_vs_actual sched df = some t →
      (t.map arowKey).Nodup ∧
      (∀ k, k ∈ t.map arowKey ↔ k ∈ sched_keys sched ∨ k ∈ act_keys df) ∧
      (∀ row ∈ t, ¬ arowKey row ∈ act_keys df → row.actual = 0) ∧
      (∀ row ∈ t, ¬ arowKey row ∈ sched_keys sched → row.planned = 0)) := by
  constructor
  · intro sched df
    have hkeys := create_keys sched df
    refine ⟨?_, ?_, ?_, ?_, ?_⟩
    · rw [hkeys]
      exact outerMerge_keys_nodup _ _ (groupSum_keys_nodup _) (groupSum_keys_nodup _)
    · intro k
      rw [hkeys, mem_outerMerge_keys, mem_groupSum_keys, mem_groupSum_keys]
      exact Iff.rfl
    · intro row hrow
      obtain ⟨m, hm, rfl⟩ := List.mem_map.mp hrow
      rfl
    · intro row hrow hkey
      obtain ⟨m, hm, rfl⟩ := List.mem_map.mp hrow
      have hnone : m.2.2 = none := by
        refine outerMerge_row_actual_none _ _ hm ?_
        rw [mem_groupSum_keys]
        exact hkey
      show m.2.2.getD 0 = 0
      rw [hnone]
      rfl
    · intro row hrow hkey
      obtain ⟨m, hm, rfl⟩ := List.mem_map.mp hrow
      have hnone : m.2.1 = none := by
        refine outerMerge_row_planned_none _ _ hm ?_
        rw [mem_groupSum_keys]
        exact hkey
      show m.2.1.getD 0 = 0
      rw [hnone]
      rfl
  · intro sched df t ht
    unfold analyze_schedule_vs_actual at ht
    by_cases h1 : sched = []
    · rw [if_pos h1] at ht; cases ht
    · rw [if_neg h1] at ht
      by_cases h2 : df = []
      · rw [if_pos h2] at ht; cases ht
      · rw [if_neg h2] at ht
        injection ht with ht
        subst ht
        have hperm := comparison_keys_perm sched df
        refine ⟨?_, ?_, ?_, ?_⟩
        · rw [hperm.nodup_iff]
          exact outerMerge_keys_nodup _ _ (groupSum_keys_nodup _) (groupSum_keys_nodup _)
        · intro k
          rw [hperm.mem_iff, mem_outerMerge_keys, mem_groupSum_keys, mem_groupSum_keys]
          exact Iff.rfl
        · intro row hrow hkey
          obtain ⟨m, hmsort, rfl⟩ := List.mem_map.mp hrow
          have hm : m ∈ (outerMerge (groupSum (sched_pairs sched))
              (groupSum (dated_pairs df))).map fun m => (m.1, m.2.1.getD 0, m.2.2.getD 0) :=
            (List.perm_insertionSort _ _).symm.mem_iff.mpr hmsort
          obtain ⟨m', hm', rfl⟩ := List.mem_map.mp hm
          have hnone : m'.2.2 = none := by
            refine outerMerge_row_actual_none _ _ hm' ?_
            rw [mem_groupSum_keys]
            exact hkey
          show m'.2.2.getD 0 = 0
          rw [hnone]
          rfl
        · intro row hrow hkey
          obtain ⟨m, hmsort, rfl⟩ := List.mem_map.mp hrow
          have hm : m ∈ (outerMerge (groupSum (sched_pairs sched))
              (groupSum (dated_pairs df))).map fun m => (m.1, m.2.1.getD 0, m.2.2.getD 0) :=
            (List.perm_insertionSort _ _).symm.mem_iff.mpr hmsort
          obtain ⟨m', hm', rfl⟩ := List.mem_map.mp hm
          have hnone : m'.2.1 = none := by
            refine outerMerge_row_planned_none _ _ hm' ?_
            rw [mem_groupSum_keys]
            exact hkey
          show m'.2.1.getD 0 = 0
          rw [hnone]
          rfl

/-- Schedule: 2 planned hours for "Career" on day 10; activity: 3 hours of
"Music" on day 0 — disjoint (date, priority) pairs. -/
def exC1sched : List ScheduleEntry := [⟨10, "Career", 2⟩]

/-- The activity input paired with `exC1sched`. -/
def exC1df : List ActivityRecord := [⟨0, "Music", 3⟩]

/-- Witness for C1 at concrete inputs. -/
theorem claim_C1_full_outer_join_witness :
    ((create_plan_vs_actual exC1sched exC1df).map rowKey).Nodup ∧
    ((10, "Career") ∈ (create_plan_vs_actual exC1sched exC1df).map rowKey ↔
      (10, "Career") ∈ sched_keys exC1sched ∨ (10, "Career") ∈ act_keys exC1df) ∧
    (((comparison_rows exC1sched exC1df).map arowKey).Nodup) :=
  ⟨(claim_C1_full_outer_join.1 exC1sched exC1df).1,
   (claim_C1_full_outer_join.1 exC1sched exC1df).2.1 (10, "Career"),
   (claim_C1_full_outer_join.2 exC1sched exC1df (comparison_rows exC1sched exC1df)
     (by simp [analyze_schedule_vs_actual, exC1sched, exC1df])).1⟩

/-- Schedule: 2 planned hours for "Career" on day 5; no matching actual. -/
def exC6sched : List ScheduleEntry := [⟨5, "Career", 2⟩]

/-- Activity: 3 hours of "Music" on day 0; no matching plan. -/
def exC6df : List ActivityRecord := [⟨0, "Music", 3⟩]

/-- The "Music" row of the example comparison table: actual 3, planned 0,
completion rate 0. -/
def row0 : AnalysisRow := ⟨0, "Music", 0, 3, 0⟩

/-- C6: in every joined comparison row, `Completion_Rate` is
`(actual/planned*100).round(2)` when `planned > 0` and `0` when
`planned = 0` — the division is guarded by the `planned > 0` mask and never
performed on the zero rows.  Concretely, actual 3 / planned 0 gives rate 0,
and in the `latestapp_v2` table the same pair gives `Difference = +3`. -/
theorem claim_C6_completion_rate :
    (∀ (sched : List ScheduleEntry) (df : List ActivityRecord) (t : List AnalysisRow),
      analyze_schedule_vs_actual sched df = some t →
      ∀ row ∈ t,
        (0 < row.planned → row.completion_rate = round2 (row.actual / row.planned * 100)) ∧
        (row.planned = 0 → row.completion_rate = 0)) ∧
    analyze_schedule_vs_actual exC6sched exC6df
      = some [⟨0, "Music", 0, 3, 0⟩, ⟨5, "Career", 2, 0, 0⟩] ∧
    create_plan_vs_actual exC6sched exC6df
      = [⟨5, "Career", 2, 0, -2⟩, ⟨0, "Music", 0, 3, 3⟩] := by
  refine ⟨?_, ?_, ?_⟩
  · intro sched df t ht
    unfold analyze_schedule_vs_actual at ht
    by_cases h1 : sched = []
    · rw [if_pos h1] at ht; cases ht
    · rw [if_neg h1] at ht
      by_cases h2 : df = []
      · rw [if_pos h2] at ht; cases ht
      · rw [if_neg h2] at ht
        injection ht with ht
        subst ht
        intro row hrow
        obtain ⟨m, hmsort, rfl⟩ := List.mem_map.mp hrow
        constructor
        · intro hpos
          show (if 0 < m.2.1 then round2 (m.2.2 / m.2.1 * 100) else 0)
            = round2 (m.2.2 / m.2.1 * 100)
          exact if_pos hpos
        · intro h0
          show (if 0 < m.2.1 then round2 (m.2.2 / m.2.1 * 100) else 0) = 0
          refine if_neg ?_
          show ¬ 0 < m.2.1
          have h0' : m.2.1 = 0 := h0
          rw [h0']
          exact lt_irrefl 0
  · norm_num [analyze_schedule_vs_actual, comparison_rows, exC6sched, exC6df, sched_pairs,
      dated_pairs, groupSum, fiberSum, dateOf, minutesPerDay, outerMerge, lookupVal,
      List.insertionSort, List.orderedInsert, round2]
  · norm_num [create_plan_vs_actual, exC6sched, exC6df, sched_pairs, dated_pairs, groupSum,
      fiberSum, dateOf, minutesPerDay, outerMerge, lookupVal]

/-- Witness for C6 at the "Music" row of the example table. -/
theorem claim_C6_completion_rate_witness :
    (0 < row0.planned → row0.completion_rate = round2 (row0.actual / row0.planned * 100)) ∧
    (row0.planned = 0 → row0.completion_rate = 0) :=
  claim_C6_completion_rate.1 exC6sched exC6df _ claim_C6_completion_rate.2.1 row0
    (by simp [row0])

/-! ## Schedule expansion (`create_schedule_section`, `more_featgpt.py`) -/

/-- The user's template: priority, planned activity, planned duration and
planned time-of-day (minutes). -/
structure ScheduleTemplate where
  priority : String
  planned_activity : String
  planned_duration : ℚ
  planned_time : Nat
deriving DecidableEq

/-- One appended schedule row:
`[date, time, priority, activity, duration, schedule_type, "Pending"]`. -/
structure SchedOut where
  date : Nat
  time : Nat
  priority : String
  planned_activity : String
  planned_duration : ℚ
  schedule_type : String
  status : String
deriving DecidableEq

/-- The row `append_row` builds from the template for one date. -/
def mkSchedRow (t : ScheduleTemplate) (kind : String) (d : Nat) : SchedOut :=
  ⟨d, t.planned_time, t.priority, t.planned_activity, t.planned_duration, kind, "Pending"⟩

/-- The `Daily` branch: `for i in range(7)` appending `today + i`. -/
def daily_rows (t : ScheduleTemplate) (today : Nat) : List SchedOut :=
  (List.range 7).map fun i => mkSchedRow t "Daily" (today + i)

/-- Weekday of a day number; day-name matching (`strftime("%A") == day`) is
equality of residues mod 7. -/
def weekday (d : Nat) : Nat := d % 7

/-- The `Weekly` branch's `while current_date <= end_date` loop, running
`end_date + 1 - start_date` iterations from `current`: a row is appended when
the weekday matches, then `current_date += timedelta(days=1)`. -/
def weeklyFrom (t : ScheduleTemplate) (target : Nat) : Nat → Nat → List SchedOut
  | _, 0 => []
  | current, n + 1 =>
    (if weekday current = target then [mkSchedRow t "Weekly" current] else [])
      ++ weeklyFrom t target (current + 1) n

/-- The rows the `Weekly` branch appends for `start_date ... end_date`. -/
def weekly_rows (t : ScheduleTemplate) (target start_date end_date : Nat) : List SchedOut :=
  weeklyFrom t target start_date (end_date + 1 - start_date)

/-- The whole `Weekly` submit handler: append the expanded rows to the
schedule table; `true` is the `st.success` report (no exception is raised by
the loop itself). -/
def add_weekly_schedule (table : List SchedOut) (t : ScheduleTemplate)
    (target start_date end_date : Nat) : List SchedOut × Bool :=
  (table ++ weekly_rows t target start_date end_date, true)

theorem mem_weeklyFrom_date (t : ScheduleTemplate) (target : Nat) :
    ∀ (n current d : Nat),
      d ∈ (weeklyFrom t target current n).map (·.date) ↔
        current ≤ d ∧ d < current + n ∧ weekday d = target := by
  intro n
  induction n with
  | zero =>
    intro current d
    show d ∈ ([] : List SchedOut).map (·.date) ↔ _
    simp
    omega
  | succ n ih =>
    intro current d
    show d ∈ ((if weekday current = target then [mkSchedRow t "Weekly" current] else [])
        ++ weeklyFrom t target (current + 1) n).map (·.date) ↔ _
    rw [List.map_append, List.mem_append, ih]
    by_cases h : weekday current = target
    · rw [if_pos h]
      simp only [List.map_cons, List.map_nil, List.mem_singleton, mkSchedRow]
      constructor
      · rintro (rfl | ⟨h1, h2, h3⟩)
        · exact ⟨le_refl _, by omega, h⟩
        · exact ⟨by omega, by omega, h3⟩
      · rintro ⟨h1, h2, h3⟩
        by_cases hdc : d = current
        · exact Or.inl hdc
        · exact Or.inr ⟨by omega, by omega, h3⟩
    · rw [if_neg h]
      simp only [List.map_nil, List.not_mem_nil, false_or]
      constructor
      · rintro ⟨h1, h2, h3⟩
        exact ⟨by omega, by omega, h3⟩
      · rintro ⟨h1, h2, h3⟩
        have hne : d ≠ current := fun hd => h (hd ▸ h3)
        exact ⟨by omega, by omega, h3⟩

theorem weeklyFrom_dates_nodup (t : ScheduleTemplate) (target : Nat) :
    ∀ (n current : Nat), ((weeklyFrom t target current n).map (·.date)).Nodup := by
  intro n
  induction n with
  | zero =>
    intro current
    exact List.nodup_nil
  | succ n ih =>
    intro current
    show (((if weekday current = target then [mkSchedRow t "Weekly" current] else [])
        ++ weeklyFrom t target (current + 1) n).map (·.date)).Nodup
    rw [List.map_append, List.nodup_append]
    refine ⟨?_, ih (current + 1), ?_⟩
    · by_cases h : weekday current = target
      · rw [if_pos h]; simp
      · rw [if_neg h]; simp
    · intro d hd1 hd2
      have hub := ((mem_weeklyFrom_date t target n (current + 1) d).mp hd2).1
      have hdc : d = current := by
        by_cases h : weekday current = target
        · rw [if_pos h] at hd1
          simpa [mkSchedRow] using hd1
        · rw [if_neg h] at hd1
          simp at hd1
      omega

theorem weeklyFrom_fields (t : ScheduleTemplate) (target : Nat) :
    ∀ (n current : Nat), ∀ row ∈ weeklyFrom t target current n,
      row.priority = t.priority ∧ row.planned_activity = t.planned_activity ∧
        row.planned_duration = t.planned_duration ∧ row.status = "Pending" := by
  intro n
  induction n with
  | zero =>
    intro current row h
    simp [weeklyFrom] at h
  | succ n ih =>
    intro current row h
    have h' : row ∈ (if weekday current = target then [mkSchedRow t "Weekly" current] else [])
        ++ weeklyFrom t target (current + 1) n := h
    rcases List.mem_append.mp h' with h1 | h1
    · by_cases hc : weekday current = target
      · rw [if_pos hc] at h1
        rw [List.mem_singleton.mp h1]
        exact ⟨rfl, rfl, rfl, rfl⟩
      · rw [if_neg hc] at h1
        simp at h1
    · exact ih (current + 1) row h1

/-- A concrete weekly template. -/
def exC7t : ScheduleTemplate := ⟨"Career", "Review goals", 1, 540⟩

/-- C7: a `Daily` template yields exactly 7 rows dated `today .. today+6`;
a `Weekly` template yields exactly one row per date in
`[start_date, end_date]` whose weekday matches the selected day; all rows
carry the template's priority, activity and duration with status `Pending`.
With day 0 := 2025-01-06 (a Monday) and Monday := weekday 0, the span
0..14 (2025-01-06..2025-01-20) yields exactly the dates 0, 7, 14. -/
theorem claim_C7_schedule_expansion :
    (∀ (t : ScheduleTemplate) (today : Nat),
      (daily_rows t today).length = 7 ∧
      (daily_rows t today).map (·.date) = (List.range 7).map (today + ·) ∧
      ∀ row ∈ daily_rows t today,
        row.priority = t.priority ∧ row.planned_activity = t.planned_activity ∧
          row.planned_duration = t.planned_duration ∧ row.status = "Pending") ∧
    (∀ (t : ScheduleTemplate) (target s e d : Nat),
      (d ∈ (weekly_rows t target s e).map (·.date) ↔
        s ≤ d ∧ d ≤ e ∧ weekday d = target) ∧
      ((weekly_rows t target s e).map (·.date)).Nodup) ∧
    (∀ (t : ScheduleTemplate) (target s e : Nat), ∀ row ∈ weekly_rows t target s e,
      row.priority = t.priority ∧ row.planned_activity = t.planned_activity ∧
        row.planned_duration = t.planned_duration ∧ row.status = "Pending") ∧
    (weekly_rows exC7t 0 0 14).map (·.date) = [0, 7, 14] := by
  refine ⟨?_, ?_, ?_, by decide⟩
  · intro t today
    refine ⟨by simp [daily_rows], by simp [daily_rows, mkSchedRow, List.map_map], ?_⟩
    intro row h
    obtain ⟨i, -, rfl⟩ := List.mem_map.mp h
    exact ⟨rfl, rfl, rfl, rfl⟩
  · intro t target s e d
    constructor
    · rw [weekly_rows, mem_weeklyFrom_date]
      constructor
      · rintro ⟨h1, h2, h3⟩
        exact ⟨h1, by omega, h3⟩
      · rintro ⟨h1, h2, h3⟩
        exact ⟨h1, by omega, h3⟩
    · exact weeklyFrom_dates_nodup t target _ s
  · intro t target s e row h
    exact weeklyFrom_fields t target _ s row h

/-- Witness for C7 at the concrete Monday example. -/
theorem claim_C7_schedule_expansion_witness :
    (daily_rows exC7t 0).length = 7 ∧
    (7 ∈ (weekly_rows exC7t 0 0 14).map (·.date) ↔ 0 ≤ 7 ∧ 7 ≤ 14 ∧ weekday 7 = 0) :=
  ⟨(claim_C7_schedule_expansion.1 exC7t 0).1,
   (claim_C7_schedule_expansion.2.1 exC7t 0 0 14 7).1⟩

/-- C10: a `Weekly` template whose start date is strictly after its end date
appends no rows: the loop body never runs, the handler still reports success,
and the schedule table is unchanged. -/
theorem claim_C10_weekly_empty_range :
    ∀ (table : List SchedOut) (t : ScheduleTemplate) (target s e : Nat), e < s →
      add_weekly_schedule table t target s e = (table, true) := by
  intro table t target s e h
  unfold add_weekly_schedule weekly_rows
  have hn : e + 1 - s = 0 := by omega
  rw [hn]
  show (table ++ [], true) = (table, true)
  rw [List.append_nil]

/-- Witness for C10: start day 5, end day 3. -/
theorem claim_C10_weekly_empty_range_witness :
    add_weekly_schedule [] exC7t 0 5 3 = ([], true) :=
  claim_C10_weekly_empty_range [] exC7t 0 5 3 (by decide)

/-! ## Time normalization (`load_data`) -/

/-- A raw source value: wall-clock minutes plus optional zone information
(minutes east of UTC; `none` = timezone-naive). -/
structure RawStamp where
  wall : Int
  tz : Option Int
deriving DecidableEq

/-- A timezone-aware value: wall-clock minutes in a zone of the given offset. -/
structure ZonedStamp where
  wall : Int
  offset : Int
deriving DecidableEq

/-- The absolute instant (UTC minutes) a zoned value denotes. -/
def instant (z : ZonedStamp) : Int := z.wall - z.offset

/-- Indian Standard Time: UTC+05:30. -/
def IST_OFFSET : Int := 330

/-- `tz_localize(zone)`: attach a zone to a naive wall-clock value without
changing the wall clock (this fixes the instant). -/
def tz_localize (off : Int) (w : Int) : ZonedStamp := ⟨w, off⟩

/-- `tz_convert(zone)`: same instant, re-expressed in the new zone. -/
def tz_convert (off : Int) (z : ZonedStamp) : ZonedStamp := ⟨instant z + off, off⟩

/-- `latestapp_v2.load_data` on the `Timestamp` column: a naive value gets
`tz_localize('UTC').tz_convert(IST)`; an aware value gets `tz_convert(IST)`. -/
def normalize_timestamp_v2 (r : RawStamp) : ZonedStamp :=
  match r.tz with
  | none => tz_convert IST_OFFSET (tz_localize 0 r.wall)
  | some o => tz_convert IST_OFFSET ⟨r.wall, o⟩

/-- `latestapp_v2.load_data` on the `Date` column: a naive value gets
`tz_localize(IST)`; an aware value gets `tz_convert(IST)`. -/
def normalize_date_v2 (r : RawStamp) : ZonedStamp :=
  match r.tz with
  | none => tz_localize IST_OFFSET r.wall
  | some o => tz_convert IST_OFFSET ⟨r.wall, o⟩

/-- `more_featgpt.load_data` on `Timestamp`: `tz_localize('Asia/Kolkata')`
unconditionally; `none` models the `TypeError` pandas raises when localizing
an already-aware series. -/
def normalize_timestamp_gpt (r : RawStamp) : Option ZonedStamp :=
  match r.tz with
  | none => some (tz_localize IST_OFFSET r.wall)
  | some _ => none

/-- The spec's words for C3: a naive value is interpreted as already being in
the canonical zone (localized, instant unshifted); an aware value is
converted to the canonical zone. -/
def spec_normalize (r : RawStamp) : ZonedStamp :=
  match r.tz with
  | none => tz_localize IST_OFFSET r.wall
  | some o => tz_convert IST_OFFSET ⟨r.wall, o⟩

/-- C3 counterexample: on the naive value with wall clock 0, the
`latestapp_v2` `Timestamp` normalizer does not localize to IST — it reads the
value as UTC and converts, so the resulting wall clock and instant both
differ from the spec's localize-to-IST result. -/
theorem claim_C3_counterexample :
    normalize_timestamp_v2 ⟨0, none⟩ ≠ spec_normalize ⟨0, none⟩ ∧
      instant (normalize_timestamp_v2 ⟨0, none⟩) ≠ instant (spec_normalize ⟨0, none⟩) := by
  decide

/-- C3 amended: the `latestapp_v2` `Timestamp` normalizer interprets naive
values as UTC and converts to IST (the instant is the wall clock read as
UTC, the wall clock shifts by +05:30); the `latestapp_v2` `Date` normalizer
and the `more_featgpt` normalizer localize naive values to IST exactly as the
spec says; aware values are converted to IST preserving the instant in all
variants. -/
theorem claim_C3_time_normalizer :
    (∀ w : Int, normalize_timestamp_v2 ⟨w, none⟩ = tz_convert IST_OFFSET (tz_localize 0 w) ∧
      instant (normalize_timestamp_v2 ⟨w, none⟩) = w ∧
      (normalize_timestamp_v2 ⟨w, none⟩).offset = IST_OFFSET ∧
      (normalize_timestamp_v2 ⟨w, none⟩).wall = w + IST_OFFSET) ∧
    (∀ w : Int, normalize_date_v2 ⟨w, none⟩ = spec_normalize ⟨w, none⟩ ∧
      instant (normalize_date_v2 ⟨w, none⟩) = w - IST_OFFSET) ∧
    (∀ w : Int, normalize_timestamp_gpt ⟨w, none⟩ = some (spec_normalize ⟨w, none⟩)) ∧
    (∀ w o : Int, instant (normalize_timestamp_v2 ⟨w, some o⟩) = w - o ∧
      (normalize_timestamp_v2 ⟨w, some o⟩).offset = IST_OFFSET ∧
      normalize_timestamp_v2 ⟨w, some o⟩ = spec_normalize ⟨w, some o⟩) := by
  refine ⟨fun w => ⟨rfl, ?_, rfl, ?_⟩, fun w => ⟨rfl, ?_⟩, fun w => rfl,
    fun w o => ⟨?_, rfl, rfl⟩⟩
  · show w - 0 + IST_OFFSET - IST_OFFSET = w
    omega
  · show w - 0 + IST_OFFSET = w + IST_OFFSET
    omega
  · rfl
  · show w - o + IST_OFFSET - IST_OFFSET = w - o
    omega

/-- C9: `total_hours` is the sum of the durations, is invariant under
reordering of the records, and is `0` on the empty record set. -/
theorem claim_C9_total_hours :
    (∀ df : List ActivityRecord, total_hours df = (df.map (·.duration)).sum) ∧
      (∀ df df' : List ActivityRecord, df.Perm df' → total_hours df = total_hours df') ∧
      total_hours [] = 0 := by
  refine ⟨fun df => rfl, ?_, rfl⟩
  intro df df' h
  exact List.Perm.sum_eq (h.map (·.duration))

/-- Witness for C9 at a concrete reordering. -/
theorem claim_C9_total_hours_witness :
    total_hours [⟨0, "Career", 2⟩, ⟨60, "Music", 3⟩]
      = total_hours [⟨60, "Music", 3⟩, ⟨0, "Career", 2⟩] :=
  claim_C9_total_hours.2.1 _ _ (by decide)
